import Mathlib

/-!
Verification of the orbit-camera motion core of `bevy_panorbit_camera`.

The pure numeric utilities (`clamp_optional`, `apply_limits`, the
`lerp_and_snap` smoothing pair, the zoom integration formula) operate on
`f32` in the source; they are embedded here over `ℚ`, which models the
exact real-number semantics of the arithmetic (the source's constants
0.05, 0.2, 0.001 are decimal literals, represented exactly as rationals).
The trigonometric conversion (`calculate_from_translation_and_focus`,
`update_orbit_transform`) and the per-tick integration steps that involve
π are embedded over `ℝ`.
-/

open Classical

/-- A 3-vector over ℚ, modelling `glam::Vec3` for the pure (trig-free)
utility functions. -/
structure Vec3Q where
  x : ℚ
  y : ℚ
  z : ℚ
deriving DecidableEq

/-- Componentwise subtraction of `Vec3Q` (`glam` vector subtraction). -/
def vsubQ (a b : Vec3Q) : Vec3Q := ⟨a.x - b.x, a.y - b.y, a.z - b.z⟩

/-- Squared length `‖v‖²` of a `Vec3Q` (`glam Vec3::length_squared`). -/
def normSqQ (v : Vec3Q) : ℚ := v.x ^ 2 + v.y ^ 2 + v.z ^ 2

/-- Constant `EPSILON` from `src/util.rs`: the snap threshold `0.001`. -/
def EPSILON : ℚ := 0.001

/-- Function `approx_equal` from `src/util.rs`: `(a - b).abs() < EPSILON`. -/
def approx_equal (a b : ℚ) : Bool := |a - b| < EPSILON

/-- Scalar lerp, `bevy_easings::Lerp` for `f32`: `a + (b - a) * t`. -/
def lerpQ (a b t : ℚ) : ℚ := a + (b - a) * t

/-- Componentwise `glam Vec3::lerp`: `a + (b - a) * t`. -/
def vlerpQ (a b : Vec3Q) (t : ℚ) : Vec3Q :=
  ⟨lerpQ a.x b.x t, lerpQ a.y b.y t, lerpQ a.z b.z t⟩

/-- Function `lerp_and_snap_f32` from `src/util.rs`:
`t = 1 - smoothness; new = lerp(from, tgt, t);`
`if smoothness < 1 && approx_equal(new, tgt) { new = tgt }`. -/
def lerp_and_snap_f32 (src tgt smoothness : ℚ) : ℚ :=
  let t := 1 - smoothness
  let new_value := lerpQ src tgt t
  if smoothness < 1 ∧ approx_equal new_value tgt then tgt else new_value

/-- Function `lerp_and_snap_vec3` from `src/util.rs`:
`t = 1 - smoothness; new = from.lerp(tgt, t);`
`if smoothness < 1 && approx_equal((new - tgt).length(), 0.0) { new.x = tgt.x }`.
Note the source assigns ONLY the `x` component inside the snap branch.
The length test `approx_equal(‖w‖, 0) = (|‖w‖ - 0| < ε)` is rendered as
`‖w‖² < ε²`, which is equivalent since `‖w‖ ≥ 0 < ε`. -/
def lerp_and_snap_vec3 (src tgt : Vec3Q) (smoothness : ℚ) : Vec3Q :=
  let t := 1 - smoothness
  let new_value := vlerpQ src tgt t
  if smoothness < 1 ∧ normSqQ (vsubQ new_value tgt) < EPSILON ^ 2 then
    { new_value with x := tgt.x }
  else new_value

/-- Method `clamp_optional` of the `OptionalClamp` impl for `f32` in `src/traits.rs`:
`if let Some(m) = min { v = max(v, m) }; if let Some(m) = max { v = min(v, m) }`. -/
def clamp_optional (x : ℚ) (lo hi : Option ℚ) : ℚ :=
  let v1 := match lo with
    | some m => max x m
    | none => x
  match hi with
  | some m => min v1 m
  | none => v1

/-- The `apply_zoom_limits` closure from `pan_orbit_camera` in `src/lib.rs`:
`zoom.clamp_optional(zoom_lower_limit, zoom_upper_limit).max(0.05)`. -/
def apply_zoom_limits (lower upper : Option ℚ) (zoom : ℚ) : ℚ :=
  max (clamp_optional zoom lower upper) 0.05

/-- The per-tick scaling of a raw line-scroll delta in `pan_orbit_camera`:
`scroll_line = tracker.scroll_line * zoom_direction * zoom_sensitivity`,
where `zoom_direction` is `-1` if `reversed_zoom` else `1`. -/
def scrollLineScaled (raw sensitivity : ℚ) (reversed : Bool) : ℚ :=
  raw * (if reversed then -1 else 1) * sensitivity

/-- The zoom-integration step of `pan_orbit_camera` (`src/lib.rs`):
`if (scroll_line + scroll_pixel).abs() > 0 {`
`  line_delta = -scroll_line * target * 0.2;`
`  pixel_delta = -scroll_pixel * target * 0.2;`
`  target += line_delta + pixel_delta }`. -/
def zoomStep (scrollLine scrollPixel target : ℚ) : ℚ :=
  if 0 < |scrollLine + scrollPixel| then
    target + (-scrollLine * target * 0.2 + -scrollPixel * target * 0.2)
  else target

/-- One tick of the zoom-target pipeline: integrate the scroll deltas into
the target (step 3 of `pan_orbit_camera`), then clamp with
`apply_zoom_limits` (step 4, `src/lib.rs` line 666/667). -/
def zoomTick (lower upper : Option ℚ) (target : ℚ) (d : ℚ × ℚ) : ℚ :=
  apply_zoom_limits lower upper (zoomStep d.1 d.2 target)

/-- A 3-vector over ℝ, modelling `glam::Vec3` for the trigonometric
coordinate conversion. -/
structure Vec3R where
  x : ℝ
  y : ℝ
  z : ℝ

/-- Componentwise addition (`glam` vector addition). -/
def vaddR (a b : Vec3R) : Vec3R := ⟨a.x + b.x, a.y + b.y, a.z + b.z⟩

/-- Componentwise subtraction (`glam` vector subtraction). -/
def vsubR (a b : Vec3R) : Vec3R := ⟨a.x - b.x, a.y - b.y, a.z - b.z⟩

/-- Scalar multiple of a vector (`glam` `Vec3 * f32`). -/
def vsmulR (c : ℝ) (v : Vec3R) : Vec3R := ⟨c * v.x, c * v.y, c * v.z⟩

/-- Vector length, `glam Vec3::length`: `√(x² + y² + z²)`. -/
noncomputable def vlengthR (v : Vec3R) : ℝ :=
  Real.sqrt (v.x ^ 2 + v.y ^ 2 + v.z ^ 2)

/-- Function `calculate_from_translation_and_focus` from `src/util.rs`:
`comp = translation - focus; radius = comp.length(); if radius == 0 { radius = 0.05 };`
`alpha = if comp.x == 0 && comp.z >= 0 { 0 } else { acos(comp.z / sqrt(comp.x² + comp.z²)) };`
`beta = asin(comp.y / radius)`. Returns `(alpha, beta, radius)`. -/
noncomputable def calculate_from_translation_and_focus (translation focus : Vec3R) :
    ℝ × ℝ × ℝ :=
  let comp := vsubR translation focus
  let radius0 := vlengthR comp
  let radius := if radius0 = 0 then 0.05 else radius0
  let alpha :=
    if comp.x = 0 ∧ 0 ≤ comp.z then 0
    else Real.arccos (comp.z / Real.sqrt (comp.x ^ 2 + comp.z ^ 2))
  let beta := Real.arcsin (comp.y / radius)
  (alpha, beta, radius)

/-- Action on vectors of `glam Quat::from_rotation_x(angle)` (rotation
matrix about the X axis). -/
noncomputable def rotX (angle : ℝ) (v : Vec3R) : Vec3R :=
  ⟨v.x,
   v.y * Real.cos angle - v.z * Real.sin angle,
   v.y * Real.sin angle + v.z * Real.cos angle⟩

/-- Action on vectors of `glam Quat::from_rotation_y(angle)` (rotation
matrix about the Y axis). -/
noncomputable def rotY (angle : ℝ) (v : Vec3R) : Vec3R :=
  ⟨v.x * Real.cos angle + v.z * Real.sin angle,
   v.y,
   -v.x * Real.sin angle + v.z * Real.cos angle⟩

/-- The rotation built by `update_orbit_transform` in `src/util.rs`
(`Quat::from_rotation_y(alpha) * Quat::from_rotation_x(-beta)`),
represented by its action on vectors. -/
noncomputable def orbitRotation (alpha beta : ℝ) (v : Vec3R) : Vec3R :=
  rotY alpha (rotX (-beta) v)

/-- A camera transform: the rotation (as its action on vectors) and the
translation, the two fields `update_orbit_transform` writes. -/
structure TransformR where
  rot : Vec3R → Vec3R
  translation : Vec3R

/-- Function `update_orbit_transform` from `src/util.rs`:
`rotation = Quat::from_rotation_y(alpha) * Quat::from_rotation_x(-beta);`
`translation = focus + rotation * Vec3::new(0, 0, radius)`. -/
noncomputable def update_orbit_transform (alpha beta radius : ℝ) (focus : Vec3R) :
    TransformR :=
  { rot := orbitRotation alpha beta
    translation := vaddR focus (orbitRotation alpha beta ⟨0, 0, radius⟩) }

/-- The round trip of claim C1: derive `(alpha, beta, radius)` from a
position and focus with `calculate_from_translation_and_focus`, then
rebuild the transform with `update_orbit_transform`. -/
noncomputable def reconTransform (position focus : Vec3R) : TransformR :=
  let abr := calculate_from_translation_and_focus position focus
  update_orbit_transform abr.1 abr.2.1 abr.2.2 focus

/-- A 2-vector over ℝ, modelling `glam::Vec2`. -/
structure Vec2R where
  x : ℝ
  y : ℝ

/-- The orbit-integration step of `pan_orbit_camera` (`src/lib.rs`):
`if orbit.length_squared() > 0 { if let Some(ws) = window_size {`
`  dx = orbit.x / ws.x * PI * 2 (negated if upside down);`
`  dy = orbit.y / ws.y * PI;`
`  target_alpha -= dx; target_beta += dy; has_moved = true } }`.
Returns the new `(target_alpha, target_beta)` and the `has_moved` flag
contribution of this step. -/
noncomputable def orbitStep (orbit : Vec2R) (windowSize : Option Vec2R)
    (upsideDown : Bool) (targetAlpha targetBeta : ℝ) : ℝ × ℝ × Bool :=
  if 0 < orbit.x ^ 2 + orbit.y ^ 2 then
    match windowSize with
    | some ws =>
      let d := orbit.x / ws.x * Real.pi * 2
      let dx := if upsideDown then -d else d
      let dy := orbit.y / ws.y * Real.pi
      (targetAlpha - dx, targetBeta + dy, true)
    | none => (targetAlpha, targetBeta, false)
  else (targetAlpha, targetBeta, false)

/-- The projection parameters read by the pan-integration step. -/
inductive ProjectionR
  | perspective (fov aspect : ℝ)
  | orthographic (areaWidth areaHeight : ℝ)

/-- The pan-integration step of `pan_orbit_camera` (`src/lib.rs`):
`if pan.length_squared() > 0 { if let Some(vp) = viewport_size {`
`  multiplier = 1; match projection {`
`    Perspective(p) => { pan *= (fov*aspect_ratio, fov)/vp; if let Some(r) = radius { multiplier = r } }`
`    Orthographic(p) => { pan *= (area.width, area.height)/vp } };`
`  right = rotation * X * -pan.x; up = rotation * Y * pan.y;`
`  target_focus += (right + up) * multiplier; has_moved = true } }`.
The camera's current rotation is passed as its action `rot` on vectors.
Returns the new `target_focus` and this step's `has_moved` flag. -/
noncomputable def panStep (pan : Vec2R) (viewportSize : Option Vec2R)
    (projection : ProjectionR) (radius : Option ℝ) (rot : Vec3R → Vec3R)
    (targetFocus : Vec3R) : Vec3R × Bool :=
  if 0 < pan.x ^ 2 + pan.y ^ 2 then
    match viewportSize with
    | some vp =>
      let scaled : Vec2R × ℝ :=
        match projection with
        | .perspective fov aspect =>
          (⟨pan.x * (fov * aspect) / vp.x, pan.y * fov / vp.y⟩,
           match radius with
           | some r => r
           | none => 1)
        | .orthographic w h =>
          (⟨pan.x * w / vp.x, pan.y * h / vp.y⟩, 1)
      let right := vsmulR (-scaled.1.x) (rot ⟨1, 0, 0⟩)
      let up := vsmulR scaled.1.y (rot ⟨0, 1, 0⟩)
      (vaddR targetFocus (vsmulR scaled.2 (vaddR right up)), true)
    | none => (targetFocus, false)
  else (targetFocus, false)

/-- Rust `f32::%` (remainder with the sign of the dividend):
`a % b = a - b * trunc(a / b)`. -/
noncomputable def rustRem (a b : ℝ) : ℝ :=
  a - b * (if 0 ≤ a / b then (Int.floor (a / b) : ℝ) else (Int.ceil (a / b) : ℝ))

/-- Constant `TAU` from `std::f32::consts`, i.e. `2π`. -/
noncomputable def tauR : ℝ := 2 * Real.pi

/-- The upside-down detection of `pan_orbit_camera` (`src/lib.rs` lines
589–594): the `is_upside_down` field after the step, given its value
before the step. Recomputed only when `orbit_button_changed`:
`wrapped_beta = (target_beta % TAU).abs();`
`is_upside_down = wrapped_beta > TAU/4 && wrapped_beta < 3*TAU/4`. -/
noncomputable def updateIsUpsideDown (orbitButtonChanged : Bool) (targetBeta : ℝ)
    (old : Bool) : Bool :=
  if orbitButtonChanged then
    let wrappedBeta := |rustRem targetBeta tauR|
    if tauR / 4 < wrappedBeta ∧ wrappedBeta < 3 * tauR / 4 then true else false
  else old

/-- Formalization of claim C4 as stated: with the window size present but
zero, the orbit integration step would be skipped. Refuted below. -/
def orbitSkippedOnZeroSize : Prop :=
  ∀ (orbit : Vec2R) (upsideDown : Bool) (targetAlpha targetBeta : ℝ),
    (orbitStep orbit (some ⟨0, 0⟩) upsideDown targetAlpha targetBeta).2.2 = false

/-- C2: every value returned by the zoom-limit clamp `apply_zoom_limits`
is at least `0.05` (and hence strictly positive), and along any sequence
of zoom deltas the clamped zoom target stays at least `0.05` at every
tick, so it never reaches zero or a negative value. -/
theorem apply_zoom_limits_floor :
    (∀ (lower upper : Option ℚ) (zoom : ℚ),
        1 / 20 ≤ apply_zoom_limits lower upper zoom ∧
        0 < apply_zoom_limits lower upper zoom) ∧
    (∀ (lower upper : Option ℚ) (t0 : ℚ) (deltas : List (ℚ × ℚ)),
        1 / 20 ≤ List.foldl (zoomTick lower upper)
          (apply_zoom_limits lower upper t0) deltas) := by
  have base : ∀ (lower upper : Option ℚ) (zoom : ℚ),
      (1 / 20 : ℚ) ≤ apply_zoom_limits lower upper zoom := by
    intro lower upper zoom
    exact le_trans (by norm_num) (le_max_right (clamp_optional zoom lower upper) 0.05)
  refine ⟨fun lower upper zoom => ⟨base lower upper zoom,
    lt_of_lt_of_le (by norm_num) (base lower upper zoom)⟩, ?_⟩
  intro lower upper t0 deltas
  induction deltas generalizing t0 with
  | nil => exact base lower upper t0
  | cons d ds ih =>
    have : List.foldl (zoomTick lower upper) (apply_zoom_limits lower upper t0) (d :: ds)
        = List.foldl (zoomTick lower upper)
            (apply_zoom_limits lower upper (zoomStep d.1 d.2 (apply_zoom_limits lower upper t0)))
            ds := rfl
    rw [this]
    exact ih (zoomStep d.1 d.2 (apply_zoom_limits lower upper t0))

/-- C5: whenever the zoom branch fires (nonzero combined scroll), the new
zoom target is `target + (-scroll_line*target*0.2) + (-scroll_pixel*target*0.2)`
(multiplicative in the current target); in particular with target 5,
zoom sensitivity 1, `reversed_zoom = false` and a line-scroll of `+1`,
the new target is exactly 4. -/
theorem zoomStep_formula :
    (∀ l p t : ℚ, l + p ≠ 0 →
        zoomStep l p t = t + (-l * t * 0.2 + -p * t * 0.2)) ∧
    zoomStep (scrollLineScaled 1 1 false) 0 5 = 4 := by
  constructor
  · intro l p t h
    rw [zoomStep, if_pos (abs_pos.mpr h)]
  · norm_num [zoomStep, scrollLineScaled]

/-- Witness for C5: the zoom branch at the concrete input
`scroll_line = 1`, `scroll_pixel = 0`, `target = 5`. -/
theorem zoomStep_formula_witness :
    (1 : ℚ) + 0 ≠ 0 ∧ zoomStep 1 0 5 = 5 + (-1 * 5 * 0.2 + -0 * 5 * 0.2) :=
  ⟨by norm_num, zoomStep_formula.1 1 0 5 (by norm_num)⟩

/-- C7: `clamp_optional` is idempotent for every combination of present /
absent bounds (assuming `lo ≤ hi` when both are present), and an
already-in-bounds value is returned unchanged. -/
theorem clamp_optional_idempotent :
    ∀ (x lo hi : ℚ), lo ≤ hi →
      (clamp_optional (clamp_optional x none none) none none =
        clamp_optional x none none) ∧
      (clamp_optional (clamp_optional x (some lo) none) (some lo) none =
        clamp_optional x (some lo) none) ∧
      (clamp_optional (clamp_optional x none (some hi)) none (some hi) =
        clamp_optional x none (some hi)) ∧
      (clamp_optional (clamp_optional x (some lo) (some hi)) (some lo) (some hi) =
        clamp_optional x (some lo) (some hi)) ∧
      (clamp_optional x none none = x) ∧
      (lo ≤ x → clamp_optional x (some lo) none = x) ∧
      (x ≤ hi → clamp_optional x none (some hi) = x) ∧
      (lo ≤ x → x ≤ hi → clamp_optional x (some lo) (some hi) = x) := by
  intro x lo hi hlohi
  simp only [clamp_optional]
  have hc1 : lo ≤ min (max x lo) hi := le_min (le_max_right x lo) hlohi
  have hc2 : min (max x lo) hi ≤ hi := min_le_right _ _
  refine ⟨trivial, ?_, ?_, ?_, trivial, ?_, ?_, ?_⟩
  · rw [max_assoc, max_self]
  · rw [min_assoc, min_self]
  · rw [max_eq_left hc1, min_eq_left hc2]
  · intro hx
    exact max_eq_left hx
  · intro hx
    exact min_eq_left hx
  · intro hx1 hx2
    rw [max_eq_left hx1, min_eq_left hx2]

/-- Witness for C7: concrete bounds `lo = 1`, `hi = 5` and in-bounds
value `x = 3`. -/
theorem clamp_optional_idempotent_witness :
    (1 : ℚ) ≤ 5 ∧ (1 : ℚ) ≤ 3 ∧ (3 : ℚ) ≤ 5 ∧
    clamp_optional (clamp_optional 3 (some 1) (some 5)) (some 1) (some 5) =
      clamp_optional 3 (some 1) (some 5) ∧
    clamp_optional 3 (some 1) (some 5) = 3 :=
  ⟨by norm_num, by norm_num, by norm_num,
    (clamp_optional_idempotent 3 1 5 (by norm_num)).2.2.2.1,
    (clamp_optional_idempotent 3 1 5 (by norm_num)).2.2.2.2.2.2.2
      (by norm_num) (by norm_num)⟩

/-- C10: when both bounds are present with `lower > upper`, the lower
bound is applied first (a `max`) and the upper bound last (a `min`), so
`clamp_optional` returns the upper bound for every input. -/
theorem clamp_optional_conflicting_bounds :
    ∀ (x lo hi : ℚ), hi < lo → clamp_optional x (some lo) (some hi) = hi := by
  intro x lo hi h
  simp only [clamp_optional]
  exact min_eq_right (le_trans h.le (le_max_right x lo))

/-- Witness for C10: `lower = 5 > upper = 2` and input `0`: the clamp
returns the upper bound `2`. -/
theorem clamp_optional_conflicting_bounds_witness :
    (2 : ℚ) < 5 ∧ clamp_optional 0 (some 5) (some 2) = 2 :=
  ⟨by norm_num, clamp_optional_conflicting_bounds 0 5 2 (by norm_num)⟩

/-- C8: `lerp_and_snap_f32 1.9991 2 0.5` snaps to exactly `2`, while
`lerp_and_snap_f32 1 2 0.5` is strictly between `1` and `2` (hence equal
to neither endpoint). -/
theorem lerp_and_snap_f32_examples :
    lerp_and_snap_f32 1.9991 2 0.5 = 2 ∧
    1 < lerp_and_snap_f32 1 2 0.5 ∧ lerp_and_snap_f32 1 2 0.5 < 2 := by
  refine ⟨?_, ?_, ?_⟩ <;>
    norm_num [lerp_and_snap_f32, lerpQ, approx_equal, EPSILON, abs_lt]

/-- C9: with `smoothness = 1` both smoothing functions return the current
value unchanged, for every current and target (scalar and vector): the
interpolation factor is `0` and the snap branch requires `smoothness < 1`. -/
theorem lerp_and_snap_smoothness_one :
    (∀ src tgt : ℚ, lerp_and_snap_f32 src tgt 1 = src) ∧
    (∀ src tgt : Vec3Q, lerp_and_snap_vec3 src tgt 1 = src) := by
  constructor
  · intro a b
    simp [lerp_and_snap_f32, lerpQ]
  · intro a b
    cases a
    simp [lerp_and_snap_vec3, vlerpQ, lerpQ]

/-- C3 (code bug): inside the snap branch `lerp_and_snap_vec3` assigns
only the `x` component of the target. At current `(0,0,0)`, target
`(0, 0.0019, 0)`, smoothness `0.5`, the lerp result `(0, 0.00095, 0)` is
within the `0.001` snap threshold of the target, yet the function returns
`(0, 0.00095, 0)`, not the target: the `y` component is left unsnapped. -/
theorem lerp_and_snap_vec3_snaps_only_x :
    lerp_and_snap_vec3 ⟨0, 0, 0⟩ ⟨0, 0.0019, 0⟩ 0.5 = ⟨0, 0.00095, 0⟩ ∧
    Vec3Q.mk 0 0.00095 0 ≠ ⟨0, 0.0019, 0⟩ := by
  constructor
  · norm_num [lerp_and_snap_vec3, vlerpQ, lerpQ, vsubQ, normSqQ, EPSILON]
  · intro h
    have := congrArg Vec3Q.y h
    norm_num at this

/-- C6: on a tick where the orbit-button edge flag is false,
`is_upside_down` is returned unchanged, whatever `target_beta` is; and
when the edge flag is true, the recomputed value does not depend on the
previous value (it is recomputed from `target_beta` alone). -/
theorem is_upside_down_gated :
    (∀ (targetBeta : ℝ) (old : Bool),
        updateIsUpsideDown false targetBeta old = old) ∧
    (∀ (targetBeta : ℝ) (o1 o2 : Bool),
        updateIsUpsideDown true targetBeta o1 = updateIsUpsideDown true targetBeta o2) := by
  constructor
  · intro b old
    simp [updateIsUpsideDown]
  · intro b o1 o2
    simp [updateIsUpsideDown]


/-- Counterexample to C4 as stated: with orbit delta `(1,1)` and window
size present but equal to `(0,0)`, the orbit integration branch executes
(`has_moved = true`) instead of being skipped — the divisors `ws.x`,
`ws.y` used in the branch are `0`, i.e. the code divides by zero (in
`f32`, producing non-finite deltas) rather than skipping the step. -/
theorem orbitStep_zero_size_not_skipped : ¬ orbitSkippedOnZeroSize := by
  intro h
  have h1 := h ⟨1, 1⟩ false 0 0
  rw [orbitStep, if_pos (by norm_num)] at h1
  simp at h1

/-- C4 amended: the orbit and pan integration steps are skipped (targets
unchanged, no movement flagged) when the respective size is ABSENT
(`None`); a present size — zero included — does not skip: whenever the
input delta is nonzero and the size is present, the branch executes. -/
theorem orbit_pan_skipped_only_when_size_absent :
    (∀ (orbit : Vec2R) (upsideDown : Bool) (targetAlpha targetBeta : ℝ),
        orbitStep orbit none upsideDown targetAlpha targetBeta =
          (targetAlpha, targetBeta, false)) ∧
    (∀ (pan : Vec2R) (projection : ProjectionR) (radius : Option ℝ)
        (rot : Vec3R → Vec3R) (targetFocus : Vec3R),
        panStep pan none projection radius rot targetFocus = (targetFocus, false)) ∧
    (∀ (orbit ws : Vec2R) (upsideDown : Bool) (targetAlpha targetBeta : ℝ),
        0 < orbit.x ^ 2 + orbit.y ^ 2 →
        (orbitStep orbit (some ws) upsideDown targetAlpha targetBeta).2.2 = true) ∧
    (∀ (pan vp : Vec2R) (projection : ProjectionR) (radius : Option ℝ)
        (rot : Vec3R → Vec3R) (targetFocus : Vec3R),
        0 < pan.x ^ 2 + pan.y ^ 2 →
        (panStep pan (some vp) projection radius rot targetFocus).2 = true) := by
  refine ⟨?_, ?_, ?_, ?_⟩
  · intro orbit u ta tb
    rw [orbitStep]
    split <;> rfl
  · intro pan proj rad rot tf
    rw [panStep.eq_def]
    split <;> rfl
  · intro orbit ws u ta tb h
    rw [orbitStep, if_pos h]
  · intro pan vp proj rad rot tf h
    rw [panStep.eq_def, if_pos h]

/-- Witness for the amended C4: a nonzero orbit delta with a present but
zero window size enters the branch. -/
theorem orbit_pan_skipped_only_when_size_absent_witness :
    (0 : ℝ) < 1 ^ 2 + 1 ^ 2 ∧
    (orbitStep ⟨1, 1⟩ (some ⟨0, 0⟩) false 0 0).2.2 = true :=
  ⟨by norm_num,
    orbit_pan_skipped_only_when_size_absent.2.2.1 ⟨1, 1⟩ ⟨0, 0⟩ false 0 0 (by norm_num)⟩

theorem orbitRotation_z (alpha beta c : ℝ) :
    orbitRotation alpha beta ⟨0, 0, c⟩ =
      ⟨c * Real.cos beta * Real.sin alpha,
       c * Real.sin beta,
       c * Real.cos beta * Real.cos alpha⟩ := by
  simp only [orbitRotation, rotX, rotY, Real.sin_neg, Real.cos_neg, Vec3R.mk.injEq]
  refine ⟨by ring, by ring, by ring⟩

theorem spherical_components (vx vy vz : ℝ)
    (h0 : 0 < vx ^ 2 + vy ^ 2 + vz ^ 2) (hx : 0 ≤ vx) :
    Real.sqrt (vx ^ 2 + vy ^ 2 + vz ^ 2) *
        Real.cos (Real.arcsin (vy / Real.sqrt (vx ^ 2 + vy ^ 2 + vz ^ 2))) *
        Real.sin (if vx = 0 ∧ 0 ≤ vz then 0
          else Real.arccos (vz / Real.sqrt (vx ^ 2 + vz ^ 2))) = vx ∧
      Real.sqrt (vx ^ 2 + vy ^ 2 + vz ^ 2) *
        Real.sin (Real.arcsin (vy / Real.sqrt (vx ^ 2 + vy ^ 2 + vz ^ 2))) = vy ∧
      Real.sqrt (vx ^ 2 + vy ^ 2 + vz ^ 2) *
        Real.cos (Real.arcsin (vy / Real.sqrt (vx ^ 2 + vy ^ 2 + vz ^ 2))) *
        Real.cos (if vx = 0 ∧ 0 ≤ vz then 0
          else Real.arccos (vz / Real.sqrt (vx ^ 2 + vz ^ 2))) = vz := by
  set r := Real.sqrt (vx ^ 2 + vy ^ 2 + vz ^ 2) with hrdef
  have hr : 0 < r := Real.sqrt_pos.mpr h0
  have hr2 : r ^ 2 = vx ^ 2 + vy ^ 2 + vz ^ 2 := Real.sq_sqrt h0.le
  set s := Real.sqrt (vx ^ 2 + vz ^ 2) with hsdef
  have hs0 : 0 ≤ s := Real.sqrt_nonneg _
  have hs2 : s ^ 2 = vx ^ 2 + vz ^ 2 := Real.sq_sqrt (by positivity)
  have hy2 : vy ^ 2 ≤ r ^ 2 := by nlinarith [sq_nonneg vx, sq_nonneg vz]
  have hyr1 : -1 ≤ vy / r := by
    rw [le_div_iff₀ hr]
    nlinarith
  have hyr2 : vy / r ≤ 1 := by
    rw [div_le_one hr]
    nlinarith
  have hrsinB : r * Real.sin (Real.arcsin (vy / r)) = vy := by
    rw [Real.sin_arcsin hyr1 hyr2]
    field_simp
  have hrcosB : r * Real.cos (Real.arcsin (vy / r)) = s := by
    rw [Real.cos_arcsin]
    have e1 : 1 - (vy / r) ^ 2 = (vx ^ 2 + vz ^ 2) / r ^ 2 := by
      field_simp
      linarith [hr2]
    rw [e1, Real.sqrt_div (by positivity) (r ^ 2), Real.sqrt_sq hr.le, hsdef.symm]
    field_simp
  rcases Classical.em (vx = 0 ∧ 0 ≤ vz) with hA | hA
  · have hsz : s = vz := by
      rw [hsdef, hA.1, show (0:ℝ) ^ 2 + vz ^ 2 = vz ^ 2 by ring, Real.sqrt_sq_eq_abs]
      exact abs_of_nonneg hA.2
    rw [if_pos hA]
    refine ⟨?_, hrsinB, ?_⟩
    · rw [Real.sin_zero, mul_zero, hA.1]
    · rw [Real.cos_zero, mul_one, hrcosB, hsz]
  · have hsne : s ≠ 0 := by
      intro hzero
      have hxz : vx ^ 2 + vz ^ 2 = 0 := by rw [← hs2, hzero]; ring
      have hvx : vx = 0 :=
        sq_eq_zero_iff.mp (le_antisymm (by nlinarith [sq_nonneg vz]) (sq_nonneg _))
      have hvz : vz = 0 :=
        sq_eq_zero_iff.mp (le_antisymm (by nlinarith [sq_nonneg vx]) (sq_nonneg _))
      exact hA ⟨hvx, le_of_eq hvz.symm⟩
    have hs : 0 < s := lt_of_le_of_ne hs0 (Ne.symm hsne)
    have hz2 : vz ^ 2 ≤ s ^ 2 := by nlinarith [sq_nonneg vx]
    have hz1 : -1 ≤ vz / s := by
      rw [le_div_iff₀ hs]
      nlinarith
    have hz1' : vz / s ≤ 1 := by
      rw [div_le_one hs]
      nlinarith
    have hscos : s * Real.cos (Real.arccos (vz / s)) = vz := by
      rw [Real.cos_arccos hz1 hz1']
      field_simp
    have hssin : s * Real.sin (Real.arccos (vz / s)) = vx := by
      rw [Real.sin_arccos]
      have e2 : 1 - (vz / s) ^ 2 = vx ^ 2 / s ^ 2 := by
        field_simp
        linarith [hs2]
      rw [e2, Real.sqrt_div (by positivity) (s ^ 2), Real.sqrt_sq hs.le, Real.sqrt_sq hx]
      field_simp
    rw [if_neg hA]
    refine ⟨?_, hrsinB, ?_⟩
    · rw [hrcosB, hssin]
    · rw [hrcosB, hscos]

/-- C1 amended: for every position and focus with the position distinct
from the focus AND a nonnegative x-offset (`(position - focus).x ≥ 0`),
deriving `(alpha, beta, radius)` with `calculate_from_translation_and_focus`
and rebuilding the transform with `update_orbit_transform` reproduces the
original position exactly, and the rebuilt rotation's forward vector
(the rotation applied to `(0,0,-1)`, Bevy's forward) points from the
position toward the focus: `radius • forward = focus - position` with
`radius > 0`. (Without the x-offset restriction the claim is false: the
derivation computes alpha with `acos`, which loses the sign of the
x-offset — see the counterexample.) -/
theorem spherical_round_trip (p f : Vec3R) (hpf : p ≠ f)
    (hx : 0 ≤ (vsubR p f).x) :
    (reconTransform p f).translation = p ∧
    0 < (calculate_from_translation_and_focus p f).2.2 ∧
    vsmulR (calculate_from_translation_and_focus p f).2.2
      ((reconTransform p f).rot ⟨0, 0, -1⟩) = vsubR f p := by
  obtain ⟨px, py, pz⟩ := p
  obtain ⟨fx, fy, fz⟩ := f
  have hx' : 0 ≤ px - fx := hx
  have hne : ¬(px - fx = 0 ∧ py - fy = 0 ∧ pz - fz = 0) := by
    intro ⟨h1, h2, h3⟩
    apply hpf
    rw [Vec3R.mk.injEq]
    refine ⟨by linarith, by linarith, by linarith⟩
  have h0 : 0 < (px - fx) ^ 2 + (py - fy) ^ 2 + (pz - fz) ^ 2 := by
    rcases lt_or_eq_of_le (show (0:ℝ) ≤ (px - fx) ^ 2 + (py - fy) ^ 2 + (pz - fz) ^ 2
      by positivity) with h | h
    · exact h
    · exfalso
      apply hne
      have e1 : px - fx = 0 := sq_eq_zero_iff.mp
        (le_antisymm (by nlinarith [sq_nonneg (py - fy), sq_nonneg (pz - fz)]) (sq_nonneg _))
      have e2 : py - fy = 0 := sq_eq_zero_iff.mp
        (le_antisymm (by nlinarith [sq_nonneg (px - fx), sq_nonneg (pz - fz)]) (sq_nonneg _))
      have e3 : pz - fz = 0 := sq_eq_zero_iff.mp
        (le_antisymm (by nlinarith [sq_nonneg (px - fx), sq_nonneg (py - fy)]) (sq_nonneg _))
      exact ⟨e1, e2, e3⟩
  obtain ⟨k1, k2, k3⟩ := spherical_components (px - fx) (py - fy) (pz - fz) h0 hx'
  have hrpos : 0 < Real.sqrt ((px - fx) ^ 2 + (py - fy) ^ 2 + (pz - fz) ^ 2) :=
    Real.sqrt_pos.mpr h0
  have hrne : Real.sqrt ((px - fx) ^ 2 + (py - fy) ^ 2 + (pz - fz) ^ 2) ≠ 0 := hrpos.ne'
  refine ⟨?_, ?_, ?_⟩
  · simp only [reconTransform, calculate_from_translation_and_focus,
      update_orbit_transform, vsubR, vlengthR, if_neg hrne]
    rw [orbitRotation_z]
    simp only [vaddR, Vec3R.mk.injEq]
    refine ⟨by linarith [k1], by linarith [k2], by linarith [k3]⟩
  · simp only [calculate_from_translation_and_focus, vsubR, vlengthR, if_neg hrne]
    exact hrpos
  · simp only [reconTransform, calculate_from_translation_and_focus,
      update_orbit_transform, vsubR, vlengthR, if_neg hrne]
    rw [orbitRotation_z]
    simp only [vsmulR, Vec3R.mk.injEq]
    refine ⟨by linarith [k1], by linarith [k2], by linarith [k3]⟩

/-- Counterexample to C1 as stated: for position `(-5, 0, 0)` and focus
`(0, 0, 0)`, the derivation yields `alpha = acos 0 = π/2` (the `acos`
formula loses the sign of the x-offset), and rebuilding the transform
produces translation `(5, 0, 0)` — a distance of `10` from the original
position, far outside any floating tolerance. -/
theorem spherical_round_trip_cex :
    (reconTransform ⟨-5, 0, 0⟩ ⟨0, 0, 0⟩).translation = ⟨5, 0, 0⟩ ∧
    Vec3R.mk 5 0 0 ≠ ⟨-5, 0, 0⟩ := by
  have hs25 : Real.sqrt 25 = 5 := by
    rw [show (25:ℝ) = 5 ^ 2 by norm_num, Real.sqrt_sq (by norm_num)]
  constructor
  · simp only [reconTransform, calculate_from_translation_and_focus,
      update_orbit_transform, vsubR, vlengthR]
    norm_num [hs25, Real.arccos_zero, Real.arcsin_zero]
    rw [orbitRotation_z]
    simp only [vaddR, Real.sin_pi_div_two, Real.cos_pi_div_two, Real.sin_zero,
      Real.cos_zero, Vec3R.mk.injEq]
    norm_num
  · intro h
    rw [Vec3R.mk.injEq] at h
    norm_num at h

/-- Witness for the amended C1: position `(0, 0, 5)`, focus `(0, 0, 0)`
satisfy both hypotheses, and the round trip holds there. -/
theorem spherical_round_trip_witness :
    Vec3R.mk 0 0 5 ≠ ⟨0, 0, 0⟩ ∧ 0 ≤ (vsubR ⟨0, 0, 5⟩ ⟨0, 0, 0⟩).x ∧
    ((reconTransform ⟨0, 0, 5⟩ ⟨0, 0, 0⟩).translation = ⟨0, 0, 5⟩ ∧
      0 < (calculate_from_translation_and_focus ⟨0, 0, 5⟩ ⟨0, 0, 0⟩).2.2 ∧
      vsmulR (calculate_from_translation_and_focus ⟨0, 0, 5⟩ ⟨0, 0, 0⟩).2.2
        ((reconTransform ⟨0, 0, 5⟩ ⟨0, 0, 0⟩).rot ⟨0, 0, -1⟩) =
        vsubR ⟨0, 0, 0⟩ ⟨0, 0, 5⟩) := by
  have hne : Vec3R.mk 0 0 5 ≠ ⟨0, 0, 0⟩ := by
    intro h
    rw [Vec3R.mk.injEq] at h
    norm_num at h
  have hx : (0:ℝ) ≤ (vsubR ⟨0, 0, 5⟩ ⟨0, 0, 0⟩).x := by
    norm_num [vsubR]
  exact ⟨hne, hx, spherical_round_trip ⟨0, 0, 5⟩ ⟨0, 0, 0⟩ hne hx⟩
